import Mathlib

/-!
Shallow embedding of the superCron synchronization pipeline.

Sources embedded:
* `server/tasks/EtiquetteController.py` — batch synchronizer (key
  conversion, NaN cleaning, price merge, price query, batching, retry
  loops for CSV retrieval and API submission).
* `server/tasks/RapportDiffInv.py` — inventory reconciliation (snapshot
  quantity parsing, diff computation, sorted report).
* `server/tasks/UpdateUnknownInv.py` — unknown-location resolver.

Python dictionaries are modelled as association lists with unique keys
kept in insertion order; `dict.get`, key replacement and `dict.update`
follow Python semantics.  Machine integers do not overflow in any of the
embedded code paths, so `Nat`/`Int` are used directly.  Network and file
system effects are modelled by explicit outcome environments, and the
`await asyncio.sleep` calls by events in an explicit trace.
-/

/-- A Python scalar value as it appears in the row dictionaries: a
string, an integer, or the pandas NaN sentinel. -/
inductive Val where
  | s (v : String)
  | i (n : Int)
  | nan
deriving DecidableEq, Repr

/-- A Python dict with `String` keys, modelled as an association list in
insertion order. -/
abbrev Rec := List (String × Val)

/-- First-match association-list lookup; models `d[k]` / `d.get(k)` for
dicts built with unique keys. -/
def alookup {κ α : Type} [DecidableEq κ] (k : κ) : List (κ × α) → Option α
  | [] => none
  | (k2, v) :: rest => if k2 = k then some v else alookup k rest

/-- Lookup with a default; models `d.get(k, dflt)`. -/
def alookupD {κ α : Type} [DecidableEq κ] (k : κ) (d : List (κ × α)) (dflt : α) : α :=
  (alookup k d).getD dflt

/-- Key membership; models `k in d`. -/
def amem {κ α : Type} [DecidableEq κ] (k : κ) (d : List (κ × α)) : Bool :=
  (alookup k d).isSome

/-- `d[k] = v` on a Python dict: replace in place if the key exists,
otherwise append (insertion order preserved). -/
def aset {κ α : Type} [DecidableEq κ] (k : κ) (v : α) : List (κ × α) → List (κ × α)
  | [] => [(k, v)]
  | (k2, w) :: rest =>
      if k2 = k then (k2, v) :: rest else (k2, w) :: aset k v rest

/-- `d1.update(d2)` on Python dicts. -/
def aupdate {κ α : Type} [DecidableEq κ] (d1 d2 : List (κ × α)) : List (κ × α) :=
  d2.foldl (fun acc p => aset p.1 p.2 acc) d1

/-- `EtiquetteController.batch_parts_list`: split a list into contiguous
batches of at most `batch_size` elements
(`[parts[i:i+batch_size] for i in range(0, len(parts), batch_size)]`). -/
def batch_parts_list (parts : List Rec) (batch_size : Nat) : List (List Rec) :=
  if h : batch_size = 0 ∨ parts = [] then []
  else parts.take batch_size :: batch_parts_list (parts.drop batch_size) batch_size
termination_by parts.length
decreasing_by
  simp only [not_or] at h
  have hb : batch_size ≠ 0 := h.1
  have hp : parts ≠ [] := h.2
  have : 0 < parts.length := List.length_pos.mpr hp
  simp only [List.length_drop]
  omega

theorem batch_parts_list_join (parts : List Rec) (B : Nat) (hB : 0 < B) :
    (batch_parts_list parts B).flatten = parts := by
  induction parts, B using batch_parts_list.induct with
  | case1 parts B h =>
      rw [batch_parts_list]
      simp only [dif_pos h, List.flatten_nil]
      rcases h with h | h
      · omega
      · exact h.symm
  | case2 parts B h ih =>
      rw [batch_parts_list]
      rw [dif_neg h]
      simp only [List.flatten_cons, ih hB, List.take_append_drop]

theorem batch_parts_list_length (parts : List Rec) (B : Nat) (hB : 0 < B) :
    (batch_parts_list parts B).length = (parts.length + B - 1) / B := by
  induction parts, B using batch_parts_list.induct with
  | case1 parts B h =>
      rw [batch_parts_list]
      simp only [dif_pos h, List.length_nil]
      rcases h with h | h
      · omega
      · subst h
        simp only [List.length_nil, Nat.zero_add]
        rw [Nat.div_eq_of_lt (by omega)]
  | case2 parts B h ih =>
      have h2 := h
      simp only [not_or] at h2
      have hp : parts ≠ [] := h2.2
      have hlen : 0 < parts.length := List.length_pos.mpr hp
      rw [batch_parts_list]
      simp only [dif_neg h, List.length_cons]
      rw [ih hB, List.length_drop]
      rcases Nat.lt_or_ge parts.length B with hlt | hge
      · have h1 : parts.length - B = 0 := by omega
        rw [h1]
        have h3 : (parts.length + B - 1) / B = 1 :=
          Nat.div_eq_of_lt_le (by omega) (by omega)
        rw [h3]
        rw [Nat.div_eq_of_lt (by omega)]
      · have h3 : parts.length + B - 1 = (parts.length - B + B - 1) + B := by omega
        rw [h3, Nat.add_div_right _ hB]

/-- The key mapping set up in `EtiquetteController.__init__`:
`Part Number → pi`, `Part Description → pn`, `Value → kc`,
`UPC Code → pc`, plus `Price → pp` when prices are included. -/
def key_mapping (include_price : Bool) : List (String × String) :=
  [("Part Number", "pi"), ("Part Description", "pn"),
   ("Value", "kc"), ("UPC Code", "pc")] ++
  (if include_price then [("Price", "pp")] else [])

/-- `EtiquetteController.convert_keys`: for each item build the dict
`{mapping[k]: v for k, v in item.items() if k in mapping}`. -/
def convert_keys (include_price : Bool) (data_list : List Rec) : List Rec :=
  data_list.map (fun item =>
    item.foldl (fun acc p =>
      match alookup p.1 (key_mapping include_price) with
      | some k2 => aset k2 p.2 acc
      | none => acc) [])

/-- `pd.isna` restricted to the scalar values of the model: only the NaN
sentinel is missing. -/
def is_na : Val → Bool
  | Val.nan => true
  | _ => false

/-- `EtiquetteController.clean_data`: replace every NaN field value by
`0` in every item. -/
def clean_data (array : List Rec) : List Rec :=
  array.map (fun item =>
    item.map (fun p => (p.1, if is_na p.2 then Val.i 0 else p.2)))

/-- `str()` on a model value, used where Python coerces dict values to
strings (`str(part.get('Part Number', ''))`). -/
def pyStr : Val → String
  | Val.s v => v
  | Val.i n => toString n
  | Val.nan => "nan"

/-- Python `str.strip()`: drop leading and trailing whitespace. -/
def pyStrip (s : String) : String :=
  String.mk
    (((s.toList.dropWhile Char.isWhitespace).reverse.dropWhile
      Char.isWhitespace).reverse)

/-- Python `str.replace(c, '')` for a one-character pattern: remove every
occurrence of the character. -/
def removeChar (c : Char) (s : String) : String :=
  String.mk (s.toList.filter (fun x => x ≠ c))

/-- Build `{item['Part Number']: item for item in prices}` keyed by the
raw value; `none` models the `KeyError` raised when a price record lacks
the key.  Python keeps the first insertion position of a duplicate key
and replaces its value, which is what `aset` does. -/
def price_dict_loop (acc : List (Val × Rec)) : List Rec → Option (List (Val × Rec))
  | [] => some acc
  | item :: rest =>
      match alookup "Part Number" item with
      | none => none
      | some pn => price_dict_loop (aset pn item acc) rest

/-- `{item['Part Number']: item for item in prices}` built left to
right. -/
def price_dict_of (prices : List Rec) : Option (List (Val × Rec)) :=
  price_dict_loop [] prices


/-- The merge loop of `EtiquetteController.merge_price_data`: for each
item of `data`, copy it and, when its part number is a key of the price
dict, update it with the price record minus the `Part Number` field;
`none` models the `KeyError` raised by `item['Part Number']`. -/
def merge_loop (pd : List (Val × Rec)) : List Rec → Option (List Rec)
  | [] => some []
  | item :: rest =>
      match alookup "Part Number" item with
      | none => none
      | some pn =>
          let ni :=
            match alookup pn pd with
            | some pinfo => aupdate item (pinfo.filter (fun p => p.1 ≠ "Part Number"))
            | none => item
          match merge_loop pd rest with
          | none => none
          | some out => some (ni :: out)

/-- `EtiquetteController.merge_price_data`: build the price dict from
`prices`, then merge into `data` preserving its length and order. -/
def merge_price_data (prices data : List Rec) : Option (List Rec) :=
  (price_dict_of prices).bind (fun pd => merge_loop pd data)

/-- One entry of a parts group in the pricing API response: a well-formed
dict carrying `MfgCode`, `PartNum` and `Price.UnitCost`, or anything that
triggers the `KeyError`/`TypeError` skip in the result loop. -/
inductive PriceEntry where
  | good (mfg pnum : String) (cost : Val)
  | malformed
deriving DecidableEq, Repr

/-- Outcome of the pricing API call in `get_processed_parts_prices`:
a transport-level failure (`requests.RequestException`, including
`raise_for_status`), a malformed response (non-dict JSON, non-dict
`result`, or a JSON decode error), or a well-formed `result` whose values
are either lists of entries or skipped non-list values (`none`). -/
inductive QueryOutcome where
  | transportErr
  | malformedResp
  | ok (groups : List (Option (List PriceEntry)))
deriving DecidableEq, Repr

/-- The per-item key derivation of `get_processed_parts_prices`:
`str(part.get('Part Number', '')).strip()`, kept only when it contains a
space, split at the first space into `(Code, PartNum)`. -/
def part_key (part : Rec) : Option (String × String) :=
  let pn := pyStrip (pyStr (alookupD "Part Number" part (Val.s "")))
  if pn.toList.contains ' ' then
    some (String.mk (pn.toList.takeWhile (fun c => c ≠ ' ')),
          String.mk ((pn.toList.dropWhile (fun c => c ≠ ' ')).drop 1))
  else none

/-- `EtiquetteController.get_processed_parts_prices`: derive the query
keys, fail when no item yields one or when the request fails, otherwise
collect every well-formed result entry as a
`{'Part Number': mfg + ' ' + pnum, 'Price': cost}` record. -/
def get_processed_parts_prices (parts : List Rec) (q : QueryOutcome) :
    List Rec × Bool :=
  let parts_list := parts.filterMap part_key
  if parts_list = [] then ([], false)
  else
    match q with
    | QueryOutcome.transportErr => ([], false)
    | QueryOutcome.malformedResp => ([], false)
    | QueryOutcome.ok groups =>
        ((groups.filterMap id).flatten.filterMap (fun e =>
          match e with
          | PriceEntry.good mfg pnum cost =>
              some [("Part Number", Val.s (mfg ++ " " ++ pnum)),
                    ("Price", cost)]
          | PriceEntry.malformed => none), true)

/-- `EtiquetteController.process_batch`: without prices just clean the
batch; with prices query, merge, then clean.  `none` models a propagated
`KeyError` from the merge. -/
def process_batch (include_price : Bool) (batch : List Rec)
    (q : QueryOutcome) : Option (List Rec × Bool) :=
  if include_price then
    let pr := get_processed_parts_prices batch q
    if pr.2 then
      (merge_price_data pr.1 batch).map (fun m => (clean_data m, true))
    else some ([], false)
  else some (clean_data batch, true)

/-- Body of one ESL submission response: a JSON object with an optional
integer `error_code`, or well-formed JSON that is not an object. -/
inductive RespBody where
  | dict (error_code : Option Int)
  | nonDict
deriving DecidableEq, Repr

/-- One attempt inside `_send_batch_to_api`: an exception (transport
failure or `response.json()` raising on a malformed body), or a response
with an HTTP status and a parsed body. -/
inductive ApiAttempt where
  | exn
  | resp (status : Nat) (body : RespBody)
deriving DecidableEq, Repr

/-- The acceptance test of `_send_batch_to_api`:
`response.status == 200 and isinstance(result, dict) and
result.get('error_code') == 0` (an exception falls to the retry path). -/
def attempt_ok : ApiAttempt → Bool
  | ApiAttempt.resp status (RespBody.dict ec) =>
      decide (status = 200 ∧ ec = some (0 : Int))
  | _ => false

/-- The retry loop of `_send_batch_to_api` over attempt outcomes `att`,
starting at attempt index `k` with `remaining` attempts left: returns the
verdict and the trace of `asyncio.sleep` delays (a sleep happens after a
failed attempt only while `attempt < max_retries - 1`, and the delay then
doubles). -/
def send_loop (att : Nat → ApiAttempt) : Nat → Nat → Nat → Bool × List Nat
  | _, 0, _ => (false, [])
  | k, r + 1, delay =>
      if attempt_ok (att k) then (true, [])
      else if r = 0 then (false, [])
      else
        let res := send_loop att (k + 1) r (2 * delay)
        (res.1, delay :: res.2)

/-- `EtiquetteController._send_batch_to_api`. -/
def send_batch_to_api (att : Nat → ApiAttempt) (max_retries initial_delay : Nat) :
    Bool × List Nat :=
  send_loop att 0 max_retries initial_delay

/-- Outcome of one download attempt in `process_csv_with_retry`: an
exception whose text contains "busy", any other exception, or a
successful download parsed into CSV rows. -/
inductive FtpOutcome where
  | busy
  | err
  | ok (rows : List Rec)
deriving DecidableEq, Repr

/-- Observable events of `process_csv_with_retry`: an
`asyncio.sleep(delay)` and the `os.remove` of the scratch file in the
`finally` block. -/
inductive CsvEv where
  | sleep (n : Nat)
  | rmTemp
deriving DecidableEq, Repr

/-- The retry loop of `EtiquetteController.process_csv_with_retry` over
download outcomes `out`, starting at attempt index `k` with `remaining`
attempts left.  Returns `((data, success), trace, attempts used)`.  A
successful download always removes the scratch file; empty parsed data
returns `(None, False)` at once; a busy error sleeps and doubles even on
the last attempt, any other error sleeps and doubles only while
`attempt < max_retries - 1`. -/
def csv_loop (out : Nat → FtpOutcome) :
    Nat → Nat → Nat → (Option (List Rec) × Bool) × List CsvEv × Nat
  | _, 0, _ => ((none, false), [], 0)
  | k, r + 1, delay =>
      match out k with
      | FtpOutcome.ok rows =>
          if rows = [] then ((none, false), [CsvEv.rmTemp], 1)
          else ((some rows, true), [CsvEv.rmTemp], 1)
      | FtpOutcome.busy =>
          let res := csv_loop out (k + 1) r (2 * delay)
          (res.1, CsvEv.sleep delay :: res.2.1, res.2.2 + 1)
      | FtpOutcome.err =>
          if r = 0 then ((none, false), [], 1)
          else
            let res := csv_loop out (k + 1) r (2 * delay)
            (res.1, CsvEv.sleep delay :: res.2.1, res.2.2 + 1)

/-- `EtiquetteController.process_csv_with_retry` (defaults
`max_retries = 3`, `initial_delay = 5`). -/
def process_csv_with_retry (out : Nat → FtpOutcome)
    (max_retries initial_delay : Nat) :
    (Option (List Rec) × Bool) × List CsvEv × Nat :=
  csv_loop out 0 max_retries initial_delay

/-- Observable per-batch events of `post_data_with_retry`: the calls of
`_send_batch_to_api` (first call and the extra retry call outside it) and
the inter-batch `await asyncio.sleep(DELAY_BETWEEN_BATCHES)`.
The bare `asyncio.sleep(delay)` before the second call is never awaited
in the source, so it delays nothing and produces no event. -/
inductive PostEv where
  | sendCall (batch call : Nat)
  | interSleep
deriving DecidableEq, Repr

/-- External outcomes consumed by one top-level pass of
`post_data_with_retry`: per batch index, the pricing-query outcome and
the per-attempt outcomes of the two `_send_batch_to_api` calls. -/
structure SyncEnv where
  query : Nat → QueryOutcome
  att1 : Nat → Nat → ApiAttempt
  att2 : Nat → Nat → ApiAttempt

/-- The body of the batch loop in `post_data_with_retry` for batch `i`:
process, convert keys, then send with the duplicated outer retry; the
inter-batch sleep is reached only when processing produced products,
because both failure paths `continue` past it. -/
def batch_step (include_price : Bool) (env : SyncEnv) (mr d i : Nat)
    (b : List Rec) : Option (Bool × List PostEv) :=
  match process_batch include_price b (env.query i) with
  | none => none
  | some (_, false) => some (false, [])
  | some (pd, true) =>
      if convert_keys include_price pd = [] then some (false, [])
      else
        if (send_batch_to_api (env.att1 i) mr d).1 then
          some (true, [PostEv.sendCall i 1, PostEv.interSleep])
        else if (send_batch_to_api (env.att2 i) mr d).1 then
          some (true, [PostEv.sendCall i 1, PostEv.sendCall i 2,
                       PostEv.interSleep])
        else
          some (false, [PostEv.sendCall i 1, PostEv.sendCall i 2,
                        PostEv.interSleep])

/-- The batch loop of `post_data_with_retry`: fold `batch_step` over all
batches, conjoining verdicts; `none` models a propagated exception. -/
def post_loop (include_price : Bool) (env : SyncEnv) (mr d : Nat) :
    List (List Rec) → Nat → Option (Bool × List PostEv)
  | [], _ => some (true, [])
  | b :: rest, i =>
      match batch_step include_price env mr d i b with
      | none => none
      | some (ok, evs) =>
          match post_loop include_price env mr d rest (i + 1) with
          | none => none
          | some (ov, tr) => some (ok && ov, evs ++ tr)

/-- `EtiquetteController.post_data_with_retry` on a list payload:
partition into batches of `BATCH_SIZE = 1000` and run the batch loop
(defaults `max_retries = 3`, `initial_delay = 5`; the local `delay` is
never modified at this level). -/
def post_data_with_retry (include_price : Bool) (data : List Rec)
    (env : SyncEnv) (mr d : Nat) : Option (Bool × List PostEv) :=
  post_loop include_price env mr d (batch_parts_list data 1000) 0

/-- A CSV row as produced by `csv.DictReader`: every value a string. -/
abbrev Row := List (String × String)

/-- Decimal digits to a natural number. -/
def digitsToNat (cs : List Char) : Nat :=
  cs.foldl (fun n c => 10 * n + (c.toNat - 48)) 0

/-- Unsigned part of Python `float` literal parsing restricted to the
decimal forms occurring in quantity cells (`D+`, `D+.D*`, `.D+`),
already truncated to the integer part (`int(float(...))` truncates
toward zero). Anything else raises `ValueError`, modelled as `none`. -/
def parseUnsigned (cs : List Char) : Option Nat :=
  let ip := cs.takeWhile Char.isDigit
  let rest := cs.drop ip.length
  match rest with
  | [] => if ip.isEmpty then none else some (digitsToNat ip)
  | '.' :: frac =>
      if frac.all Char.isDigit && (!ip.isEmpty || !frac.isEmpty) then
        some (digitsToNat ip)
      else none
  | _ => none

/-- `int(float(s))` in the snapshot parser, on the decimal-literal
fragment: optional sign, then digits with an optional fraction; the
result is truncated toward zero. -/
def pyFloatTruncInt (s : String) : Option Int :=
  match s.toList with
  | '-' :: rest => (parseUnsigned rest).map (fun n => -(n : Int))
  | '+' :: rest => (parseUnsigned rest).map (fun n => (n : Int))
  | cs => (parseUnsigned cs).map (fun n => (n : Int))

/-- Part-code normalization of `InventoryChecker.get_csv_quantities`:
`row.get('Part Number', '').strip().replace('-', '')`. -/
def norm_part_number (row : Row) : String :=
  removeChar '-' (pyStrip (alookupD "Part Number" row ""))

/-- Quantity parsing of one snapshot row:
`row.get('Quantity on Hand', '0').strip()`, empty string to `0`, commas
removed, then `int(float(...))`, with a parse failure coerced to `0`
under a logged warning. -/
def row_qty (row : Row) : Int :=
  let value_str := pyStrip (alookupD "Quantity on Hand" row "0")
  if value_str = "" then 0
  else
    match pyFloatTruncInt (removeChar ',' value_str) with
    | some q => q
    | none => 0

/-- The row loop of `InventoryChecker.get_csv_quantities`, carrying the
`processed_parts` set and the `quantities` dict: a row whose normalized
part number is empty or already processed is skipped (`continue`),
otherwise the part is marked processed and
`quantities[pn] = quantities.get(pn, 0) + qty` is executed. -/
def csv_quantities_loop :
    List Row → List String → List (String × Int) → List (String × Int)
  | [], _, quantities => quantities
  | row :: rest, processed, quantities =>
      let part_number := norm_part_number row
      if part_number = "" ∨ part_number ∈ processed then
        csv_quantities_loop rest processed quantities
      else
        csv_quantities_loop rest (part_number :: processed)
          (aset part_number (alookupD part_number quantities 0 + row_qty row)
            quantities)

/-- `InventoryChecker.get_csv_quantities` on already-parsed rows. -/
def get_csv_quantities (rows : List Row) : List (String × Int) :=
  csv_quantities_loop rows [] []

/-- `InventoryComparison` dataclass of `RapportDiffInv.py`. -/
structure InventoryComparison where
  store_id : Nat
  item_name : String
  db_count : Int
  csv_count : Int
  difference : Int
deriving DecidableEq, Repr

/-- `set(db.keys()) | set(csv.keys())`; Python set iteration order is
unspecified, the model fixes first-occurrence order, which is irrelevant
to membership and to the sorted report. -/
def union_items (db csv : List (String × Int)) : List String :=
  (db.map Prod.fst ++ csv.map Prod.fst).dedup

/-- The diff of `InventoryChecker.compare_inventory`: for each item of
the union, read both counts with default `0`, keep only nonzero
`csv_count - db_count`. -/
def compare_inventory (sid : Nat) (db csv : List (String × Int)) :
    List InventoryComparison :=
  (union_items db csv).filterMap (fun item =>
    let dbc := alookupD item db 0
    let csvc := alookupD item csv 0
    if csvc - dbc ≠ 0 then
      some ⟨sid, item, dbc, csvc, csvc - dbc⟩
    else none)

/-- Sort key of `sorted(comparisons, key=lambda x: x.difference)`. -/
def comp_le (a b : InventoryComparison) : Prop :=
  a.difference ≤ b.difference

instance comp_le_decidable : DecidableRel comp_le :=
  fun a b => inferInstanceAs (Decidable (a.difference ≤ b.difference))

instance comp_le_total : IsTotal InventoryComparison comp_le :=
  ⟨fun a b => le_total a.difference b.difference⟩

instance comp_le_trans : IsTrans InventoryComparison comp_le :=
  ⟨fun _ _ _ h1 h2 => le_trans h1 h2⟩

/-- The stable ascending sort applied in
`InventoryChecker.send_notification` before the report is written. -/
def sorted_comparisons (comparisons : List InventoryComparison) :
    List InventoryComparison :=
  List.insertionSort comp_le comparisons

/-- The `locations` table row of `UpdateUnknownInv.py`; timestamps as
abstract instants. -/
structure Location where
  id : Nat
  upc : String
  name : String
  store : String
  level : String
  row : String
  side : String
  column : String
  shelf : String
  bin : String
  full_location : String
  updated_by : String
  updated_at : Nat
  created_by : String
  created_at : Nat
  is_archived : Nat
deriving DecidableEq, Repr

/-- The `inventory` table restricted to the columns the resolver reads. -/
structure InventoryItem where
  upc : String
  item : String
deriving DecidableEq, Repr

/-- The placeholder filter of `_update_locations_from_inventory`:
`Location.name == 'inconnu' AND Location.is_archived == 0`. -/
def is_unknown_active (l : Location) : Bool :=
  decide (l.name = "inconnu" ∧ l.is_archived = 0)

/-- `SELECT DISTINCT upc FROM locations WHERE name = 'inconnu' AND NOT
is_archived` (first-occurrence order). -/
def unknown_upcs (db : List Location) : List String :=
  ((db.filter is_unknown_active).map Location.upc).dedup

/-- `{row.upc: row.item for row in inventory WHERE upc IN upcs}` with
Python dict last-wins value replacement. -/
def upc_to_item (inv : List InventoryItem) (upcs : List String) :
    List (String × String) :=
  inv.foldl (fun d r => if r.upc ∈ upcs then aset r.upc r.item d else d) []

/-- The mutation applied by the resolver's update statement:
`SET name=:item, updated_at=:now, updated_by='system'`. -/
def mut_loc (l : Location) (item : String) (now : Nat) : Location :=
  { l with name := item, updated_at := now, updated_by := "system" }

/-- One `UPDATE locations SET name=:item, updated_at=:now,
updated_by='system' WHERE upc=:u AND name='inconnu' AND is_archived=0`,
returning the new table and the statement row count. -/
def apply_update (u item : String) (now : Nat) (db : List Location) :
    List Location × Nat :=
  (db.map (fun l =>
    if l.upc = u ∧ l.name = "inconnu" ∧ l.is_archived = 0 then
      mut_loc l item now
    else l),
   (db.filter (fun l =>
     decide (l.upc = u ∧ l.name = "inconnu" ∧ l.is_archived = 0))).length)

/-- The update loop of `_update_locations_from_inventory`: one update
statement per `upc_to_item` entry, each committed, row counts summed. -/
def update_fold (now : Nat) :
    List (String × String) → List Location → List Location × Nat
  | [], db => (db, 0)
  | (u, item) :: rest, db =>
      let step := apply_update u item now db
      let res := update_fold now rest step.1
      (res.1, step.2 + res.2)

/-- `LocationUpdateService._update_locations_from_inventory`: collect
the distinct unresolved codes, return `0` at once when there are none,
otherwise run one update per matched catalog entry. -/
def update_locations_from_inventory (db : List Location)
    (inv : List InventoryItem) (now : Nat) : List Location × Nat :=
  let upcs := unknown_upcs db
  if upcs = [] then (db, 0)
  else
    let res := update_fold now (upc_to_item inv upcs) db
    (res.1, res.2)

theorem alookup_aset_self {κ α : Type} [DecidableEq κ] (k : κ) (v : α)
    (d : List (κ × α)) : alookup k (aset k v d) = some v := by
  induction d with
  | nil => simp [aset, alookup]
  | cons p rest ih =>
      obtain ⟨k2, w⟩ := p
      by_cases h : k2 = k
      · subst h; simp [aset, alookup]
      · simp [aset, alookup, h, ih]

theorem alookup_aset_ne {κ α : Type} [DecidableEq κ] (k k2 : κ) (v : α)
    (d : List (κ × α)) (h : k2 ≠ k) :
    alookup k2 (aset k v d) = alookup k2 d := by
  induction d with
  | nil =>
      simp only [aset, alookup]
      rw [if_neg (fun h2 => h h2.symm)]
  | cons p rest ih =>
      obtain ⟨k3, w⟩ := p
      by_cases h3 : k3 = k
      · subst h3
        simp only [aset, if_pos rfl, alookup]
        rw [if_neg (fun h2 => h h2.symm), if_neg (fun h2 => h h2.symm)]
      · simp only [aset, if_neg h3, alookup]
        by_cases h4 : k3 = k2
        · simp [h4]
        · simp [h4, ih]

theorem alookup_isSome_iff {κ α : Type} [DecidableEq κ] (k : κ)
    (d : List (κ × α)) :
    (alookup k d).isSome = true ↔ k ∈ d.map Prod.fst := by
  induction d with
  | nil => simp [alookup]
  | cons p rest ih =>
      obtain ⟨k2, w⟩ := p
      by_cases h : k2 = k
      · subst h; simp [alookup]
      · simp only [alookup, if_neg h, List.map_cons, List.mem_cons]
        rw [ih]
        constructor
        · exact Or.inr
        · rintro (h2 | h2)
          · exact absurd h2.symm h
          · exact h2

theorem alookup_eq_none {κ α : Type} [DecidableEq κ] (k : κ)
    (d : List (κ × α)) (h : k ∉ d.map Prod.fst) : alookup k d = none := by
  cases h2 : alookup k d with
  | none => rfl
  | some v =>
      exfalso
      exact h ((alookup_isSome_iff k d).mp (by simp [h2]))

/-- The doubling-delay sequence `d, 2d, 4d, …` of length `m`, the shape
of every retry-sleep trace in the synchronizer. -/
def geom : Nat → Nat → List Nat
  | _, 0 => []
  | d, m + 1 => d :: geom (2 * d) m

theorem geom_getElem (m : Nat) : ∀ (d i : Nat),
    (geom d m)[i]? = if i < m then some (2 ^ i * d) else none := by
  induction m with
  | zero => intro d i; simp [geom]
  | succ m ih =>
      intro d i
      cases i with
      | zero => simp [geom]
      | succ i =>
          simp only [geom, List.getElem?_cons_succ, ih]
          by_cases h : i < m
          · rw [if_pos h, if_pos (by omega)]
            congr 1
            rw [pow_succ]
            ring
          · rw [if_neg h, if_neg (by omega)]

theorem send_loop_geom (att : Nat → ApiAttempt) :
    ∀ (r k d : Nat), ∃ m, (send_loop att k r d).2 = geom d m := by
  intro r
  induction r with
  | zero => intro k d; exact ⟨0, rfl⟩
  | succ r ih =>
      intro k d
      by_cases h : attempt_ok (att k)
      · exact ⟨0, by simp [send_loop, h, geom]⟩
      · by_cases h0 : r = 0
        · exact ⟨0, by simp [send_loop, h, h0, geom]⟩
        · obtain ⟨m, hm⟩ := ih (k + 1) (2 * d)
          exact ⟨m + 1, by simp [send_loop, h, h0, geom, hm]⟩

/-- Projection of a `process_csv_with_retry` trace onto its sleep
delays. -/
def csv_sleeps (tr : List CsvEv) : List Nat :=
  tr.filterMap (fun e =>
    match e with
    | CsvEv.sleep n => some n
    | CsvEv.rmTemp => none)

theorem csv_loop_geom (out : Nat → FtpOutcome) :
    ∀ (r k d : Nat), ∃ m, csv_sleeps (csv_loop out k r d).2.1 = geom d m := by
  intro r
  induction r with
  | zero => intro k d; exact ⟨0, rfl⟩
  | succ r ih =>
      intro k d
      cases hout : out k with
      | ok rows =>
          by_cases h : rows = []
          · exact ⟨0, by simp [csv_loop, hout, h, csv_sleeps, geom]⟩
          · exact ⟨0, by simp [csv_loop, hout, h, csv_sleeps, geom]⟩
      | busy =>
          obtain ⟨m, hm⟩ := ih (k + 1) (2 * d)
          exact ⟨m + 1, by simp [csv_loop, hout, csv_sleeps, geom, hm.symm, csv_sleeps] ⟩
      | err =>
          by_cases h0 : r = 0
          · exact ⟨0, by simp [csv_loop, hout, h0, csv_sleeps, geom]⟩
          · obtain ⟨m, hm⟩ := ih (k + 1) (2 * d)
            exact ⟨m + 1, by simp [csv_loop, hout, h0, csv_sleeps, geom, hm.symm]⟩

theorem geom_head (d m : Nat) (h : geom d m ≠ []) : (geom d m)[0]? = some d := by
  cases m with
  | zero => simp [geom] at h
  | succ m => simp [geom]

theorem geom_double (d m i x y : Nat) (hx : (geom d m)[i + 1]? = some x)
    (hy : (geom d m)[i]? = some y) : x = 2 * y := by
  rw [geom_getElem] at hx hy
  by_cases h1 : i + 1 < m
  · rw [if_pos h1] at hx
    rw [if_pos (by omega)] at hy
    have hx2 : x = 2 ^ (i + 1) * d := by exact (Option.some.injEq _ _ ▸ hx).symm
    have hy2 : y = 2 ^ i * d := by exact (Option.some.injEq _ _ ▸ hy).symm
    subst hx2; subst hy2
    rw [pow_succ]
    ring
  · rw [if_neg h1] at hx
    exact absurd hx (by simp)

/-- **C5**: a submission attempt of the send primitive is accepted iff
the transport-level response is an HTTP 200 whose body is a well-formed
object with application-level `error_code = 0`; every other combination
(exception, non-200 status, non-object body, missing or nonzero error
code) is a failed attempt, and a single-attempt run of
`_send_batch_to_api` returns exactly that verdict. -/
theorem C5_send_acceptance (a : ApiAttempt) :
    (attempt_ok a = true ↔ a = ApiAttempt.resp 200 (RespBody.dict (some 0))) ∧
    (∀ d : Nat, send_batch_to_api (fun _ => a) 1 d = (attempt_ok a, [])) := by
  constructor
  · cases a with
    | exn => simp [attempt_ok]
    | resp status body =>
        cases body with
        | dict ec =>
            simp only [attempt_ok, decide_eq_true_eq, ApiAttempt.resp.injEq,
              RespBody.dict.injEq]
        | nonDict => simp [attempt_ok]
  · intro d
    show send_loop (fun _ => a) 0 1 d = (attempt_ok a, [])
    by_cases h : attempt_ok a <;> simp [send_loop, h]

/-- Witness for C5 at concrete attempts. -/
theorem C5_send_acceptance_witness :
    attempt_ok (ApiAttempt.resp 200 (RespBody.dict (some 0))) = true ∧
    send_batch_to_api (fun _ => ApiAttempt.resp 500 (RespBody.dict (some 0))) 1 7 =
      (attempt_ok (ApiAttempt.resp 500 (RespBody.dict (some 0))), []) :=
  ⟨(C5_send_acceptance (ApiAttempt.resp 200 (RespBody.dict (some 0)))).1.mpr rfl,
   (C5_send_acceptance (ApiAttempt.resp 500 (RespBody.dict (some 0)))).2 7⟩

/-- **C7**: in both retry loops of the synchronizer — the API-submission
loop of `_send_batch_to_api` and the file-retrieval loop of
`process_csv_with_retry` — the trace of sleep delays starts at
`initial_delay` and each later delay is exactly double its
predecessor. -/
theorem C7_retry_backoff_doubling :
    (∀ (att : Nat → ApiAttempt) (mr d : Nat),
      ((send_batch_to_api att mr d).2 ≠ [] →
        (send_batch_to_api att mr d).2[0]? = some d) ∧
      (∀ i x y, (send_batch_to_api att mr d).2[i + 1]? = some x →
        (send_batch_to_api att mr d).2[i]? = some y → x = 2 * y)) ∧
    (∀ (out : Nat → FtpOutcome) (mr d : Nat),
      (csv_sleeps (process_csv_with_retry out mr d).2.1 ≠ [] →
        (csv_sleeps (process_csv_with_retry out mr d).2.1)[0]? = some d) ∧
      (∀ i x y,
        (csv_sleeps (process_csv_with_retry out mr d).2.1)[i + 1]? = some x →
        (csv_sleeps (process_csv_with_retry out mr d).2.1)[i]? = some y →
        x = 2 * y)) := by
  constructor
  · intro att mr d
    obtain ⟨m, hm⟩ := send_loop_geom att mr 0 d
    rw [show send_batch_to_api att mr d = send_loop att 0 mr d from rfl, hm]
    exact ⟨geom_head d m, fun i x y hx hy => geom_double d m i x y hx hy⟩
  · intro out mr d
    obtain ⟨m, hm⟩ := csv_loop_geom out mr 0 d
    rw [show process_csv_with_retry out mr d = csv_loop out 0 mr d from rfl, hm]
    exact ⟨geom_head d m, fun i x y hx hy => geom_double d m i x y hx hy⟩

/-- Witness for C7: with all attempts failing and the defaults
`max_retries = 3`, `initial_delay = 5`, the submission loop sleeps
`[5, 10]` and the retrieval loop sleeps `[5, 10, 20]`; the theorem
yields the doubling equations at the concrete traces. -/
theorem C7_retry_backoff_doubling_witness :
    (send_batch_to_api (fun _ => ApiAttempt.exn) 3 5).2 = [5, 10] ∧
    (10 : Nat) = 2 * 5 ∧
    csv_sleeps (process_csv_with_retry (fun _ => FtpOutcome.busy) 3 5).2.1 =
      [5, 10, 20] ∧
    (20 : Nat) = 2 * 10 :=
  ⟨rfl,
   (C7_retry_backoff_doubling.1 (fun _ => ApiAttempt.exn) 3 5).2 0 10 5 rfl rfl,
   rfl,
   (C7_retry_backoff_doubling.2 (fun _ => FtpOutcome.busy) 3 5).2 1 20 10 rfl rfl⟩

/-- **C10**: when the first download attempt of the file-retrieval
sub-step succeeds but parses to zero data rows, the call returns
`(None, False)` immediately — exactly one attempt consumed, no retry
sleeps — and the scratch file is still removed. -/
theorem C10_empty_rows_fail_fast (out : Nat → FtpOutcome) (mr d : Nat)
    (hmr : 0 < mr) (h0 : out 0 = FtpOutcome.ok []) :
    process_csv_with_retry out mr d = ((none, false), [CsvEv.rmTemp], 1) := by
  show csv_loop out 0 mr d = _
  cases mr with
  | zero => omega
  | succ r => simp [csv_loop, h0]

/-- Witness for C10 with the default budget of 3 attempts. -/
theorem C10_empty_rows_fail_fast_witness :
    process_csv_with_retry (fun _ => FtpOutcome.ok []) 3 5 =
      ((none, false), [CsvEv.rmTemp], 1) :=
  C10_empty_rows_fail_fast (fun _ => FtpOutcome.ok []) 3 5 (by omega) rfl

theorem price_dict_loop_keys (prices : List Rec) :
    ∀ (acc : List (Val × Rec)) (pd : List (Val × Rec)),
    price_dict_loop acc prices = some pd →
    ∀ pn, (alookup pn pd).isSome = true →
      (alookup pn acc).isSome = true ∨
      ∃ p ∈ prices, alookup "Part Number" p = some pn := by
  induction prices with
  | nil =>
      intro acc pd hrun pn hpn
      simp only [price_dict_loop, Option.some.injEq] at hrun
      subst hrun
      exact Or.inl hpn
  | cons item rest ih =>
      intro acc pd hrun pn hpn
      simp only [price_dict_loop] at hrun
      cases hk : alookup "Part Number" item with
      | none => rw [hk] at hrun; exact absurd hrun (by simp)
      | some pn0 =>
          rw [hk] at hrun
          rcases ih (aset pn0 item acc) pd hrun pn hpn with h | ⟨p, hp, hp2⟩
          · by_cases he : pn = pn0
            · subst he
              exact Or.inr ⟨item, List.mem_cons_self _ _, hk⟩
            · rw [alookup_aset_ne pn0 pn item acc he] at h
              exact Or.inl h
          · exact Or.inr ⟨p, List.mem_cons_of_mem _ hp, hp2⟩

theorem merge_loop_length (pd : List (Val × Rec)) :
    ∀ (data out : List Rec), merge_loop pd data = some out →
    out.length = data.length := by
  intro data
  induction data with
  | nil => intro out h; simp only [merge_loop, Option.some.injEq] at h; simp [← h]
  | cons item rest ih =>
      intro out h
      simp only [merge_loop] at h
      cases hk : alookup "Part Number" item with
      | none => rw [hk] at h; exact absurd h (by simp)
      | some pn =>
          rw [hk] at h
          cases hrec : merge_loop pd rest with
          | none => rw [hrec] at h; exact absurd h (by simp)
          | some out2 =>
              rw [hrec] at h
              simp only [Option.some.injEq] at h
              subst h
              simp [ih out2 hrec]

theorem merge_loop_passthrough (pd : List (Val × Rec)) :
    ∀ (data out : List Rec), merge_loop pd data = some out →
    ∀ i (h : i < data.length) pn,
      alookup "Part Number" data[i] = some pn →
      alookup pn pd = none →
      out[i]? = some data[i] := by
  intro data
  induction data with
  | nil =>
      intro out h i hi
      exact absurd hi (by simp)
  | cons item rest ih =>
      intro out h i hi pn hpn hnone
      simp only [merge_loop] at h
      cases hk : alookup "Part Number" item with
      | none => rw [hk] at h; exact absurd h (by simp)
      | some pn0 =>
          rw [hk] at h
          cases hrec : merge_loop pd rest with
          | none => rw [hrec] at h; exact absurd h (by simp)
          | some out2 =>
              rw [hrec] at h
              simp only [Option.some.injEq] at h
              subst h
              cases i with
              | zero =>
                  simp only [List.getElem_cons_zero] at hpn
                  have hpe : pn0 = pn := by
                    rw [hk] at hpn
                    exact Option.some.inj hpn
                  subst hpe
                  simp only [List.getElem?_cons_zero, Option.some.injEq,
                    List.getElem_cons_zero]
                  rw [hnone]
              | succ i =>
                  simp only [List.getElem_cons_succ] at hpn
                  simp only [List.length_cons] at hi
                  simp only [List.getElem?_cons_succ, List.getElem_cons_succ]
                  exact ih out2 hrec i (by omega) pn hpn hnone

/-- **C9**: in `merge_price_data`, every primary record whose
`Part Number` does not occur in any secondary price record passes
through exactly (field-for-field) at its original position, and the
output has the same length and order as the primary input. -/
theorem C9_merge_unmatched_passthrough (prices data out : List Rec)
    (hrun : merge_price_data prices data = some out) :
    out.length = data.length ∧
    ∀ i (h : i < data.length) pn,
      alookup "Part Number" data[i] = some pn →
      (∀ p ∈ prices, alookup "Part Number" p ≠ some pn) →
      out[i]? = some data[i] := by
  unfold merge_price_data at hrun
  cases hpd : price_dict_of prices with
  | none => rw [hpd] at hrun; exact absurd hrun (by simp)
  | some pd =>
      rw [hpd] at hrun
      simp only [Option.some_bind] at hrun
      constructor
      · exact merge_loop_length pd data out hrun
      · intro i h pn hpn habs
        have hnone : alookup pn pd = none := by
          cases hl : alookup pn pd with
          | none => rfl
          | some v =>
              exfalso
              have hs : (alookup pn pd).isSome = true := by simp [hl]
              rcases price_dict_loop_keys prices [] pd hpd pn hs with h2 | ⟨p, hp, hp2⟩
              · simp [alookup] at h2
              · exact habs p hp hp2
        exact merge_loop_passthrough pd data out hrun i h pn hpn hnone

/-- Concrete fixture for the C9 witness: one secondary price record and
one primary record with a different part number. -/
def pricesC9 : List Rec := [[("Part Number", Val.s "AB X"), ("Price", Val.i 9)]]

/-- Concrete fixture for the C9 witness. -/
def dataC9 : List Rec := [[("Part Number", Val.s "CD Y"), ("Value", Val.i 2)]]

/-- Witness for C9: the unmatched record passes through unchanged. -/
theorem C9_merge_unmatched_passthrough_witness :
    dataC9[0]? = some [("Part Number", Val.s "CD Y"), ("Value", Val.i 2)] :=
  (C9_merge_unmatched_passthrough pricesC9 dataC9 dataC9 (by decide)).2 0
    (by decide) (Val.s "CD Y") (by decide) (by decide)

theorem csv_quantities_loop_lookup (rows : List Row) :
    ∀ (processed : List String) (quantities : List (String × Int))
      (code : String), code ≠ "" →
    (code ∈ processed ↔ (alookup code quantities).isSome = true) →
    alookup code (csv_quantities_loop rows processed quantities) =
      if code ∈ processed then alookup code quantities
      else (rows.find? (fun r => decide (norm_part_number r = code))).map row_qty := by
  induction rows with
  | nil =>
      intro processed quantities code hcode hinv
      simp only [csv_quantities_loop, List.find?_nil, Option.map_none]
      by_cases hc : code ∈ processed
      · rw [if_pos hc]
      · rw [if_neg hc]
        cases halo : alookup code quantities with
        | none => rfl
        | some v =>
            exfalso
            exact hc (hinv.mpr (by simp [halo]))
  | cons row rest ih =>
      intro processed quantities code hcode hinv
      simp only [csv_quantities_loop]
      by_cases hskip : norm_part_number row = "" ∨ norm_part_number row ∈ processed
      · rw [if_pos hskip, ih processed quantities code hcode hinv]
        by_cases hc : code ∈ processed
        · rw [if_pos hc, if_pos hc]
        · rw [if_neg hc, if_neg hc]
          have hne : ¬ (norm_part_number row = code) := by
            intro he
            rcases hskip with h1 | h1
            · exact hcode (he ▸ h1)
            · exact hc (he ▸ h1)
          rw [List.find?_cons_of_neg _ (by simp [hne])]
      · rw [if_neg hskip]
        push_neg at hskip
        obtain ⟨hne, hnp⟩ := hskip
        have hinv2 : code ∈ norm_part_number row :: processed ↔
            (alookup code (aset (norm_part_number row)
              (alookupD (norm_part_number row) quantities 0 + row_qty row)
              quantities)).isSome = true := by
          by_cases he : code = norm_part_number row
          · subst he
            simp [alookup_aset_self]
          · simp only [List.mem_cons]
            rw [alookup_aset_ne (norm_part_number row) code _ quantities he]
            constructor
            · rintro (h1 | h1)
              · exact absurd h1 he
              · exact hinv.mp h1
            · intro h1
              exact Or.inr (hinv.mpr h1)
        rw [ih _ _ code hcode hinv2]
        by_cases he : code = norm_part_number row
        · rw [if_pos (by rw [he]; exact List.mem_cons_self _ _)]
          have hc2 : code ∉ processed := fun hx => hnp (he ▸ hx)
          rw [if_neg hc2]
          rw [he, alookup_aset_self]
          have hq0 : alookup (norm_part_number row) quantities = none := by
            cases halo : alookup (norm_part_number row) quantities with
            | none => rfl
            | some v =>
                exfalso
                exact hnp ((he ▸ hinv).mpr (by simp [halo]))
          rw [List.find?_cons_of_pos _ (by simp [he])]
          simp [alookupD, hq0]
        · by_cases hc : code ∈ processed
          · rw [if_pos (List.mem_cons_of_mem _ hc), if_pos hc]
            exact alookup_aset_ne (norm_part_number row) code _ quantities he
          · rw [if_neg (by
              simp only [List.mem_cons]
              rintro (h1 | h1)
              · exact he h1
              · exact hc h1), if_neg hc]
            rw [List.find?_cons_of_neg _
              (by simp only [decide_eq_true_eq]; exact fun hx => he hx.symm)]

/-- Concrete snapshot rows for the C2 counterexample: two rows whose part
codes normalize to the same `A1` with quantities `1` and `2`. -/
def rowsC2 : List Row :=
  [[("Part Number", "A-1"), ("Quantity on Hand", "1")],
   [("Part Number", "A1"), ("Quantity on Hand", "2")]]

/-- **C2 counterexample**: both rows of `rowsC2` bear the normalized part
code `A1` with parsed quantities summing to `3`, yet the snapshot
computation returns `1` — the second (duplicate) row is skipped by the
`processed_parts` guard, not summed as the claim states. -/
theorem C2_counterexample :
    norm_part_number [("Part Number", "A-1"), ("Quantity on Hand", "1")] = "A1" ∧
    norm_part_number [("Part Number", "A1"), ("Quantity on Hand", "2")] = "A1" ∧
    row_qty [("Part Number", "A-1"), ("Quantity on Hand", "1")] +
      row_qty [("Part Number", "A1"), ("Quantity on Hand", "2")] = 3 ∧
    alookup "A1" (get_csv_quantities rowsC2) = some 1 ∧
    (1 : Int) ≠ 3 := by
  refine ⟨?_, ?_, ?_, ?_, ?_⟩ <;> decide

/-- **C2 (amended)**: the snapshot-quantity computation strips `-` from
part codes (`norm_part_number`) and coerces malformed quantity strings to
zero (`row_qty`), but collapses duplicate rows by keeping only the first
row per part code: for every nonempty code, the returned quantity is the
parsed quantity of the first row bearing that code, and absent codes are
absent from the result. -/
theorem C2_snapshot_first_occurrence (rows : List Row) (code : String)
    (hcode : code ≠ "") :
    alookup code (get_csv_quantities rows) =
      (rows.find? (fun r => decide (norm_part_number r = code))).map row_qty ∧
    (∀ row : Row,
      pyFloatTruncInt (removeChar ',' (pyStrip (alookupD "Quantity on Hand" row "0")))
          = none →
      pyStrip (alookupD "Quantity on Hand" row "0") ≠ "" →
      row_qty row = 0) := by
  constructor
  · have h := csv_quantities_loop_lookup rows [] [] code hcode
      (by simp [alookup])
    simpa [get_csv_quantities] using h
  · intro row hparse hne
    unfold row_qty
    rw [if_neg hne, hparse]

/-- Witness for the amended C2 at the concrete duplicate-row snapshot. -/
theorem C2_snapshot_first_occurrence_witness :
    alookup "A1" (get_csv_quantities rowsC2) =
      (rowsC2.find? (fun r => decide (norm_part_number r = "A1"))).map row_qty :=
  (C2_snapshot_first_occurrence rowsC2 "A1" (by decide)).1

/-- **C6 counterexample**: a batch whose only item has a spaceless part
number is failed by the processing step even though the price query
outcome is a successful response — the claim says the batch fails only
when the price query itself fails, but here the query is never issued
because the derived key list is empty, and the batch still fails. -/
theorem C6_counterexample :
    process_batch true [[("Part Number", Val.s "ABC123")]]
        (QueryOutcome.ok [some [PriceEntry.good "AB" "C123" (Val.i 3)]]) =
      some ([], false) ∧
    part_key [("Part Number", Val.s "ABC123")] = none := by
  constructor <;> decide

/-- **C6 (amended)**: with price lookup enabled and at least one item
yielding a query key, spaceless items are silently dropped from the key
derivation without affecting the outcome, and the processing step fails
(returning `([], False)`, no partial merge) exactly when the price query
itself fails; when no item yields a key the step fails without querying
(see the counterexample). -/
theorem C6_price_failure_modes (batch : List Rec) (q : QueryOutcome)
    (hk : batch.filterMap part_key ≠ []) :
    ((process_batch true batch q).map (fun r => r.2) = some false ↔
      q = QueryOutcome.transportErr ∨ q = QueryOutcome.malformedResp) ∧
    (∀ item : Rec, part_key item = none →
      ∀ pre post : List Rec, batch = pre ++ item :: post →
        batch.filterMap part_key = (pre ++ post).filterMap part_key) ∧
    (q = QueryOutcome.transportErr ∨ q = QueryOutcome.malformedResp →
      process_batch true batch q = some ([], false)) := by
  refine ⟨?_, ?_, ?_⟩
  · simp only [process_batch, Bool.not_eq_true, if_neg, get_processed_parts_prices,
      if_neg hk]
    cases q with
    | transportErr => simp
    | malformedResp => simp
    | ok groups =>
        simp only []
        cases hm : merge_price_data
            ((groups.filterMap id).flatten.filterMap (fun e =>
              match e with
              | PriceEntry.good mfg pnum cost =>
                  some [("Part Number", Val.s (mfg ++ " " ++ pnum)),
                        ("Price", cost)]
              | PriceEntry.malformed => none)) batch with
        | none => simp [hm]
        | some m => simp [hm]
  · intro item hnone pre post hb
    subst hb
    simp [List.filterMap_append, List.filterMap_cons, hnone]
  · rintro (hq | hq) <;> subst hq <;>
      simp [process_batch, get_processed_parts_prices, if_neg hk]

/-- Witness for the amended C6: one valid-key batch with a failing
transport. -/
theorem C6_price_failure_modes_witness :
    process_batch true [[("Part Number", Val.s "AB C1")]]
      QueryOutcome.transportErr = some ([], false) :=
  (C6_price_failure_modes [[("Part Number", Val.s "AB C1")]]
    QueryOutcome.transportErr (by decide)).2.2 (Or.inl rfl)

theorem mem_union_items (db csv : List (String × Int)) (k : String) :
    k ∈ union_items db csv ↔ k ∈ db.map Prod.fst ∨ k ∈ csv.map Prod.fst := by
  simp [union_items, List.mem_dedup, List.mem_append]

theorem compare_inventory_names_sublist (sid : Nat)
    (db csv : List (String × Int)) :
    ((compare_inventory sid db csv).map InventoryComparison.item_name).Sublist
      (union_items db csv) := by
  unfold compare_inventory
  generalize union_items db csv = l
  induction l with
  | nil => simp
  | cons a l ih =>
      simp only [List.filterMap_cons]
      by_cases h : alookupD a csv 0 - alookupD a db 0 ≠ 0
      · rw [if_pos h]
        simpa using List.Sublist.cons₂ a ih
      · rw [if_neg h]
        exact ih.cons a

/-- **C3**: the reconciliation diff emits, for each item of the union of
both key sets whose counts differ, exactly one comparison with the
missing side defaulted to `0` and `difference = csv_count - db_count`;
items with equal counts are absent; an item present only in the snapshot
with nonzero count `Q` yields `⟨0, Q, Q⟩`; and the report emitted by the
notifier is the ascending-by-difference permutation of the
comparisons. -/
theorem C3_reconciliation_diff (sid : Nat) (db csv : List (String × Int)) :
    (∀ c ∈ compare_inventory sid db csv,
        c.store_id = sid ∧
        c.db_count = alookupD c.item_name db 0 ∧
        c.csv_count = alookupD c.item_name csv 0 ∧
        c.difference = c.csv_count - c.db_count ∧
        c.difference ≠ 0) ∧
    (∀ item : String,
        (item ∈ db.map Prod.fst ∨ item ∈ csv.map Prod.fst) →
        alookupD item csv 0 - alookupD item db 0 ≠ 0 →
        (⟨sid, item, alookupD item db 0, alookupD item csv 0,
          alookupD item csv 0 - alookupD item db 0⟩ : InventoryComparison) ∈
          compare_inventory sid db csv) ∧
    ((compare_inventory sid db csv).map InventoryComparison.item_name).Nodup ∧
    (∀ (item : String) (Q : Int),
        alookup item db = none → alookup item csv = some Q → Q ≠ 0 →
        (⟨sid, item, 0, Q, Q⟩ : InventoryComparison) ∈
          compare_inventory sid db csv) ∧
    List.Sorted comp_le (sorted_comparisons (compare_inventory sid db csv)) ∧
    (sorted_comparisons (compare_inventory sid db csv)).Perm
      (compare_inventory sid db csv) := by
  refine ⟨?_, ?_, ?_, ?_, ?_, ?_⟩
  · intro c hc
    rw [compare_inventory, List.mem_filterMap] at hc
    obtain ⟨a, _, hfa⟩ := hc
    by_cases h : alookupD a csv 0 - alookupD a db 0 ≠ 0
    · rw [if_pos h] at hfa
      cases hfa
      exact ⟨rfl, rfl, rfl, rfl, h⟩
    · rw [if_neg h] at hfa
      exact absurd hfa (by simp)
  · intro item hmem hdiff
    rw [compare_inventory, List.mem_filterMap]
    exact ⟨item, (mem_union_items db csv item).mpr hmem, if_pos hdiff⟩
  · exact ((compare_inventory_names_sublist sid db csv).nodup
      (List.nodup_dedup _))
  · intro item Q hdb hcsv hQ
    have h1 : alookupD item db 0 = 0 := by simp [alookupD, hdb]
    have h2 : alookupD item csv 0 = Q := by simp [alookupD, hcsv]
    have hmem : item ∈ csv.map Prod.fst :=
      (alookup_isSome_iff item csv).mp (by simp [hcsv])
    rw [compare_inventory, List.mem_filterMap]
    refine ⟨item, (mem_union_items db csv item).mpr (Or.inr hmem), ?_⟩
    rw [if_pos (by rw [h1, h2]; simpa using hQ)]
    rw [h1, h2]
    simp
  · exact List.sorted_insertionSort comp_le _
  · exact List.perm_insertionSort comp_le _

/-- Witness for C3: item `b` present only in the snapshot with count 7. -/
theorem C3_reconciliation_diff_witness :
    (⟨1, "b", 0, 7, 7⟩ : InventoryComparison) ∈
      compare_inventory 1 [("a", 5)] [("a", 5), ("b", 7)] :=
  (C3_reconciliation_diff 1 [("a", 5)] [("a", 5), ("b", 7)]).2.2.2.1 "b" 7
    (by decide) (by decide) (by decide)

/-- Whether batch `i` reaches the submission stage of the batch loop
(processing succeeded and key conversion produced products) — exactly the
condition under which the loop body reaches both the `_send_batch_to_api`
calls and the inter-batch sleep instead of `continue`. -/
def reaches_send (include_price : Bool) (env : SyncEnv) (i : Nat)
    (b : List Rec) : Bool :=
  match process_batch include_price b (env.query i) with
  | some (pd, true) => decide (convert_keys include_price pd ≠ [])
  | _ => false

/-- Number of batches of the list (starting at index `i`) that reach the
submission stage. -/
def countRS (include_price : Bool) (env : SyncEnv) :
    Nat → List (List Rec) → Nat
  | _, [] => 0
  | i, b :: rest =>
      (if reaches_send include_price env i b then 1 else 0) +
      countRS include_price env (i + 1) rest

theorem batch_step_sleeps (ip : Bool) (env : SyncEnv) (mr d i : Nat)
    (b : List Rec) (ok : Bool) (evs : List PostEv)
    (h : batch_step ip env mr d i b = some (ok, evs)) :
    evs.count PostEv.interSleep = if reaches_send ip env i b then 1 else 0 := by
  unfold batch_step at h
  unfold reaches_send
  cases hpb : process_batch ip b (env.query i) with
  | none => rw [hpb] at h; exact absurd h (by simp)
  | some r =>
      obtain ⟨pd, ok2⟩ := r
      rw [hpb] at h
      cases ok2 with
      | false =>
          simp only [Option.some.injEq, Prod.mk.injEq] at h
          obtain ⟨h1, h2⟩ := h
          simp [← h2]
      | true =>
          dsimp only at h
          by_cases hpr : convert_keys ip pd = []
          · rw [if_pos hpr] at h
            simp only [Option.some.injEq, Prod.mk.injEq] at h
            obtain ⟨h1, h2⟩ := h
            simp [← h2, hpr]
          · rw [if_neg hpr] at h
            rw [if_pos (by simpa using hpr)]
            by_cases hs1 : (send_batch_to_api (env.att1 i) mr d).1
            · rw [if_pos hs1] at h
              simp only [Option.some.injEq, Prod.mk.injEq] at h
              obtain ⟨h1, h2⟩ := h
              simp [← h2]
            · rw [if_neg hs1] at h
              by_cases hs2 : (send_batch_to_api (env.att2 i) mr d).1
              · rw [if_pos hs2] at h
                simp only [Option.some.injEq, Prod.mk.injEq] at h
                obtain ⟨h1, h2⟩ := h
                simp [← h2]
              · rw [if_neg hs2] at h
                simp only [Option.some.injEq, Prod.mk.injEq] at h
                obtain ⟨h1, h2⟩ := h
                simp [← h2]

theorem post_loop_sleep_count (ip : Bool) (env : SyncEnv) (mr d : Nat) :
    ∀ (bs : List (List Rec)) (i : Nat) (b : Bool) (tr : List PostEv),
    post_loop ip env mr d bs i = some (b, tr) →
    tr.count PostEv.interSleep = countRS ip env i bs := by
  intro bs
  induction bs with
  | nil =>
      intro i b tr h
      simp only [post_loop, Option.some.injEq, Prod.mk.injEq] at h
      simp [← h.2, countRS]
  | cons bb rest ih =>
      intro i b tr h
      simp only [post_loop] at h
      cases hstep : batch_step ip env mr d i bb with
      | none => rw [hstep] at h; exact absurd h (by simp)
      | some r =>
          obtain ⟨ok, evs⟩ := r
          rw [hstep] at h
          cases hrec : post_loop ip env mr d rest (i + 1) with
          | none => rw [hrec] at h; exact absurd h (by simp)
          | some r2 =>
              obtain ⟨ov, tr2⟩ := r2
              rw [hrec] at h
              simp only [Option.some.injEq, Prod.mk.injEq] at h
              rw [← h.2, List.count_append, countRS,
                batch_step_sleeps ip env mr d i bb ok evs hstep,
                ih (i + 1) ov tr2 hrec]

theorem post_loop_verdict (ip : Bool) (env : SyncEnv) (mr d : Nat) :
    ∀ (bs : List (List Rec)) (i : Nat) (b : Bool) (tr : List PostEv),
    post_loop ip env mr d bs i = some (b, tr) →
    (b = true ↔ ∀ j (hj : j < bs.length),
      (batch_step ip env mr d (i + j) bs[j]).map Prod.fst = some true) := by
  intro bs
  induction bs with
  | nil =>
      intro i b tr h
      simp only [post_loop, Option.some.injEq, Prod.mk.injEq] at h
      constructor
      · intro _ j hj
        exact absurd hj (by simp)
      · intro _
        exact h.1.symm
  | cons bb rest ih =>
      intro i b tr h
      simp only [post_loop] at h
      cases hstep : batch_step ip env mr d i bb with
      | none => rw [hstep] at h; exact absurd h (by simp)
      | some r =>
          obtain ⟨ok, evs⟩ := r
          rw [hstep] at h
          cases hrec : post_loop ip env mr d rest (i + 1) with
          | none => rw [hrec] at h; exact absurd h (by simp)
          | some r2 =>
              obtain ⟨ov, tr2⟩ := r2
              rw [hrec] at h
              simp only [Option.some.injEq, Prod.mk.injEq] at h
              have hb : b = (ok && ov) := h.1.symm
              rw [hb, Bool.and_eq_true]
              constructor
              · rintro ⟨hok, hov⟩ j hj
                cases j with
                | zero =>
                    rw [Nat.add_zero]
                    simp only [List.getElem_cons_zero]
                    rw [hstep, hok]
                    rfl
                | succ j =>
                    simp only [List.getElem_cons_succ]
                    have hj2 : j < rest.length := by
                      simp only [List.length_cons] at hj
                      omega
                    have hx := (ih (i + 1) ov tr2 hrec).mp hov j hj2
                    rw [show i + (j + 1) = (i + 1) + j by omega]
                    exact hx
              · intro hall
                constructor
                · have hx := hall 0 (by simp)
                  rw [Nat.add_zero] at hx
                  simp only [List.getElem_cons_zero] at hx
                  rw [hstep] at hx
                  simpa using hx
                · rw [ih (i + 1) ov tr2 hrec]
                  intro j hj
                  have hx := hall (j + 1) (by simp only [List.length_cons]; omega)
                  simp only [List.getElem_cons_succ] at hx
                  rw [show i + (j + 1) = (i + 1) + j by omega] at hx
                  exact hx

theorem post_loop_mem_of_step (ip : Bool) (env : SyncEnv) (mr d : Nat) :
    ∀ (bs : List (List Rec)) (i : Nat) (b : Bool) (tr : List PostEv),
    post_loop ip env mr d bs i = some (b, tr) →
    ∀ j (hj : j < bs.length) (ok : Bool) (evs : List PostEv),
      batch_step ip env mr d (i + j) bs[j] = some (ok, evs) →
      ∀ e ∈ evs, e ∈ tr := by
  intro bs
  induction bs with
  | nil =>
      intro i b tr h j hj
      exact absurd hj (by simp)
  | cons bb rest ih =>
      intro i b tr h j hj ok evs hstep e he
      simp only [post_loop] at h
      cases hstep0 : batch_step ip env mr d i bb with
      | none => rw [hstep0] at h; exact absurd h (by simp)
      | some r =>
          obtain ⟨ok0, evs0⟩ := r
          rw [hstep0] at h
          cases hrec : post_loop ip env mr d rest (i + 1) with
          | none => rw [hrec] at h; exact absurd h (by simp)
          | some r2 =>
              obtain ⟨ov, tr2⟩ := r2
              rw [hrec] at h
              simp only [Option.some.injEq, Prod.mk.injEq] at h
              rw [← h.2, List.mem_append]
              cases j with
              | zero =>
                  left
                  simp only [Nat.add_zero, List.getElem_cons_zero] at hstep
                  rw [hstep0] at hstep
                  simp only [Option.some.injEq, Prod.mk.injEq] at hstep
                  rw [← hstep.2] at he
                  exact he
              | succ j =>
                  right
                  simp only [List.getElem_cons_succ] at hstep
                  exact ih (i + 1) ov tr2 hrec j
                    (by simp only [List.length_cons] at hj; omega)
                    ok evs
                    (by rw [show (i + 1) + j = i + (j + 1) by omega]; exact hstep)
                    e he

theorem post_loop_mem_src (ip : Bool) (env : SyncEnv) (mr d : Nat) :
    ∀ (bs : List (List Rec)) (i : Nat) (b : Bool) (tr : List PostEv),
    post_loop ip env mr d bs i = some (b, tr) →
    ∀ e ∈ tr, ∃ j, ∃ hj : j < bs.length, ∃ (ok : Bool) (evs : List PostEv),
      batch_step ip env mr d (i + j) bs[j] = some (ok, evs) ∧ e ∈ evs := by
  intro bs
  induction bs with
  | nil =>
      intro i b tr h e he
      simp only [post_loop, Option.some.injEq, Prod.mk.injEq] at h
      rw [← h.2] at he
      exact absurd he (by simp)
  | cons bb rest ih =>
      intro i b tr h e he
      simp only [post_loop] at h
      cases hstep0 : batch_step ip env mr d i bb with
      | none => rw [hstep0] at h; exact absurd h (by simp)
      | some r =>
          obtain ⟨ok0, evs0⟩ := r
          rw [hstep0] at h
          cases hrec : post_loop ip env mr d rest (i + 1) with
          | none => rw [hrec] at h; exact absurd h (by simp)
          | some r2 =>
              obtain ⟨ov, tr2⟩ := r2
              rw [hrec] at h
              simp only [Option.some.injEq, Prod.mk.injEq] at h
              rw [← h.2, List.mem_append] at he
              cases he with
              | inl he =>
                  exact ⟨0, by simp, ok0, evs0, by simpa using hstep0, he⟩
              | inr he =>
                  obtain ⟨j, hj, ok, evs, hstep, hev⟩ :=
                    ih (i + 1) ov tr2 hrec e he
                  refine ⟨j + 1, by simp only [List.length_cons]; omega, ok, evs,
                    ?_, hev⟩
                  simp only [List.getElem_cons_succ]
                  rw [show i + (j + 1) = (i + 1) + j by omega]
                  exact hstep

theorem batch_step_events (ip : Bool) (env : SyncEnv) (mr d i : Nat)
    (b : List Rec) (ok : Bool) (evs : List PostEv)
    (h : batch_step ip env mr d i b = some (ok, evs)) :
    ∀ e ∈ evs, e = PostEv.interSleep ∨ e = PostEv.sendCall i 1 ∨
      e = PostEv.sendCall i 2 := by
  unfold batch_step at h
  cases hpb : process_batch ip b (env.query i) with
  | none => rw [hpb] at h; exact absurd h (by simp)
  | some r =>
      obtain ⟨pd, ok2⟩ := r
      rw [hpb] at h
      cases ok2 with
      | false =>
          simp only [Option.some.injEq, Prod.mk.injEq] at h
          rw [← h.2]
          intro e he
          exact absurd he (by simp)
      | true =>
          dsimp only at h
          by_cases hpr : convert_keys ip pd = []
          · rw [if_pos hpr] at h
            simp only [Option.some.injEq, Prod.mk.injEq] at h
            rw [← h.2]
            intro e he
            exact absurd he (by simp)
          · rw [if_neg hpr] at h
            by_cases hs1 : (send_batch_to_api (env.att1 i) mr d).1
            · rw [if_pos hs1] at h
              simp only [Option.some.injEq, Prod.mk.injEq] at h
              rw [← h.2]
              intro e he
              simp only [List.mem_cons, List.not_mem_nil, or_false] at he
              rcases he with he | he
              · exact Or.inr (Or.inl he)
              · exact Or.inl he
            · rw [if_neg hs1] at h
              by_cases hs2 : (send_batch_to_api (env.att2 i) mr d).1
              · rw [if_pos hs2] at h
                simp only [Option.some.injEq, Prod.mk.injEq] at h
                rw [← h.2]
                intro e he
                simp only [List.mem_cons, List.not_mem_nil, or_false] at he
                rcases he with he | he | he
                · exact Or.inr (Or.inl he)
                · exact Or.inr (Or.inr he)
                · exact Or.inl he
              · rw [if_neg hs2] at h
                simp only [Option.some.injEq, Prod.mk.injEq] at h
                rw [← h.2]
                intro e he
                simp only [List.mem_cons, List.not_mem_nil, or_false] at he
                rcases he with he | he | he
                · exact Or.inr (Or.inl he)
                · exact Or.inr (Or.inr he)
                · exact Or.inl he

theorem batch_step_send1 (ip : Bool) (env : SyncEnv) (mr d i : Nat)
    (b : List Rec) (ok : Bool) (evs : List PostEv)
    (h : batch_step ip env mr d i b = some (ok, evs))
    (pd : List Rec)
    (hpb : process_batch ip b (env.query i) = some (pd, true))
    (hne : convert_keys ip pd ≠ []) :
    PostEv.sendCall i 1 ∈ evs := by
  unfold batch_step at h
  rw [hpb] at h
  dsimp only at h
  rw [if_neg hne] at h
  by_cases hs1 : (send_batch_to_api (env.att1 i) mr d).1
  · rw [if_pos hs1] at h
    simp only [Option.some.injEq, Prod.mk.injEq] at h
    rw [← h.2]
    simp
  · rw [if_neg hs1] at h
    by_cases hs2 : (send_batch_to_api (env.att2 i) mr d).1
    · rw [if_pos hs2] at h
      simp only [Option.some.injEq, Prod.mk.injEq] at h
      rw [← h.2]
      simp
    · rw [if_neg hs2] at h
      simp only [Option.some.injEq, Prod.mk.injEq] at h
      rw [← h.2]
      simp

theorem post_loop_steps_some (ip : Bool) (env : SyncEnv) (mr d : Nat) :
    ∀ (bs : List (List Rec)) (i : Nat) (b : Bool) (tr : List PostEv),
    post_loop ip env mr d bs i = some (b, tr) →
    ∀ j (hj : j < bs.length), ∃ (ok : Bool) (evs : List PostEv),
      batch_step ip env mr d (i + j) bs[j] = some (ok, evs) := by
  intro bs
  induction bs with
  | nil =>
      intro i b tr h j hj
      exact absurd hj (by simp)
  | cons bb rest ih =>
      intro i b tr h j hj
      simp only [post_loop] at h
      cases hstep0 : batch_step ip env mr d i bb with
      | none => rw [hstep0] at h; exact absurd h (by simp)
      | some r =>
          obtain ⟨ok0, evs0⟩ := r
          rw [hstep0] at h
          cases hrec : post_loop ip env mr d rest (i + 1) with
          | none => rw [hrec] at h; exact absurd h (by simp)
          | some r2 =>
              obtain ⟨ov, tr2⟩ := r2
              cases j with
              | zero =>
                  exact ⟨ok0, evs0, by simpa using hstep0⟩
              | succ j =>
                  simp only [List.getElem_cons_succ]
                  have hj2 : j < rest.length := by
                    simp only [List.length_cons] at hj
                    omega
                  obtain ⟨ok, evs, hs⟩ := ih (i + 1) ov tr2 hrec j hj2
                  exact ⟨ok, evs,
                    by rw [show i + (j + 1) = (i + 1) + j by omega]; exact hs⟩

theorem batch_parts_list_singleton (r : Rec) :
    batch_parts_list [r] 1000 = [[r]] := by
  rw [batch_parts_list, dif_neg (by simp)]
  rw [batch_parts_list]
  simp

/-- **C1 counterexample**: with price lookup enabled, a record set of one
batch (`ceil(N/B) = 1`) whose price query fails is `continue`d past
`_send_batch_to_api`: the run ends with an empty trace containing no
submission call at all — even though every submission would have been
accepted — so the pass does not perform a submission attempt for each
batch as the claim states. -/
theorem C1_counterexample :
    post_data_with_retry true [[("Part Number", Val.s "CD E2")]]
      (SyncEnv.mk (fun _ => QueryOutcome.transportErr)
        (fun _ _ => ApiAttempt.resp 200 (RespBody.dict (some 0)))
        (fun _ _ => ApiAttempt.resp 200 (RespBody.dict (some 0)))) 3 5 =
      some (false, []) ∧
    (batch_parts_list [[("Part Number", Val.s "CD E2")]] 1000).length = 1 ∧
    PostEv.sendCall 0 1 ∉ ([] : List PostEv) := by
  refine ⟨?_, ?_, ?_⟩
  · unfold post_data_with_retry
    rw [batch_parts_list_singleton]
    decide
  · rw [batch_parts_list_singleton]
    decide
  · decide

/-- **C1 (amended)**: a top-level pass of `post_data_with_retry`
partitions the record set into exactly `ceil(N/1000)` batches whose
concatenation in order is the input; the pass returns success iff the
per-batch verdict of every batch is success (no failed batch stops the
loop, every batch is driven to a verdict); every batch whose processing
stage succeeds — with price lookup disabled, that is every batch — gets a
first `_send_batch_to_api` call recorded in the trace regardless of other
batches' failures, while a batch whose processing fails is marked failed
with no submission attempt (see the counterexample); and no submission is
recorded for an index beyond the batch list. -/
theorem C1_batch_partition_and_verdict (ip : Bool) (data : List Rec)
    (env : SyncEnv) (mr d : Nat) (b : Bool) (tr : List PostEv)
    (hrun : post_data_with_retry ip data env mr d = some (b, tr)) :
    (batch_parts_list data 1000).flatten = data ∧
    (batch_parts_list data 1000).length = (data.length + 1000 - 1) / 1000 ∧
    (b = true ↔ ∀ i (hi : i < (batch_parts_list data 1000).length),
      (batch_step ip env mr d i (batch_parts_list data 1000)[i]).map Prod.fst =
        some true) ∧
    (∀ i (hi : i < (batch_parts_list data 1000).length) (pd : List Rec),
      process_batch ip (batch_parts_list data 1000)[i] (env.query i) =
        some (pd, true) →
      convert_keys ip pd ≠ [] →
      PostEv.sendCall i 1 ∈ tr) ∧
    (∀ i c, PostEv.sendCall i c ∈ tr →
      i < (batch_parts_list data 1000).length) := by
  unfold post_data_with_retry at hrun
  refine ⟨batch_parts_list_join data 1000 (by omega),
          batch_parts_list_length data 1000 (by omega), ?_, ?_, ?_⟩
  · have h := post_loop_verdict ip env mr d (batch_parts_list data 1000) 0 b tr
      hrun
    simpa using h
  · intro i hi pd hpb hne
    obtain ⟨ok, evs, hstep⟩ :=
      post_loop_steps_some ip env mr d (batch_parts_list data 1000) 0 b tr hrun
        i hi
    rw [Nat.zero_add] at hstep
    have hmem := batch_step_send1 ip env mr d i
      (batch_parts_list data 1000)[i] ok evs hstep pd hpb hne
    exact post_loop_mem_of_step ip env mr d (batch_parts_list data 1000) 0 b tr
      hrun i hi ok evs (by rw [Nat.zero_add]; exact hstep) _ hmem
  · intro i c hmem
    obtain ⟨j, hj, ok, evs, hstep, hev⟩ :=
      post_loop_mem_src ip env mr d (batch_parts_list data 1000) 0 b tr hrun
        _ hmem
    rw [Nat.zero_add] at hstep
    have := batch_step_events ip env mr d j (batch_parts_list data 1000)[j] ok
      evs hstep _ hev
    rcases this with h1 | h1 | h1
    · exact absurd h1 (by simp)
    · cases h1
      exact hj
    · cases h1
      exact hj

/-- Environment for the C1/C4 witnesses: no price query needed, first
submission accepted. -/
def envSendOk : SyncEnv :=
  ⟨fun _ => QueryOutcome.transportErr,
   fun _ _ => ApiAttempt.resp 200 (RespBody.dict (some 0)),
   fun _ _ => ApiAttempt.exn⟩

/-- Data for the C1/C4 witnesses: one quantity-only record. -/
def dataQty : List Rec := [[("Value", Val.nan)]]

/-- Witness for C1 on a concrete quantity-only run: the single batch's
first submission call appears in the trace. -/
theorem C1_batch_partition_and_verdict_witness :
    PostEv.sendCall 0 1 ∈ [PostEv.sendCall 0 1, PostEv.interSleep] :=
  (C1_batch_partition_and_verdict false dataQty envSendOk 3 5 true
    [PostEv.sendCall 0 1, PostEv.interSleep]
    (by
      unfold post_data_with_retry dataQty
      rw [batch_parts_list_singleton]
      decide)).2.2.2.1 0
    (by unfold dataQty; rw [batch_parts_list_singleton]; decide)
    [[("Value", Val.i 0)]]
    (by unfold dataQty; simp only [batch_parts_list_singleton]; decide)
    (by decide)

/-- **C4 counterexample**: one batch whose price query fails: the batch
fails in processing, the `continue` skips the inter-batch sleep, and the
trace contains no inter-batch delay at all — the delay is not applied
"regardless of batch outcome". -/
theorem C4_counterexample :
    post_data_with_retry true [[("Part Number", Val.s "AB C1")]]
      (SyncEnv.mk (fun _ => QueryOutcome.transportErr)
        (fun _ _ => ApiAttempt.exn) (fun _ _ => ApiAttempt.exn)) 3 5 =
      some (false, []) ∧
    (batch_parts_list [[("Part Number", Val.s "AB C1")]] 1000).length = 1 ∧
    ([] : List PostEv).count PostEv.interSleep = 0 := by
  refine ⟨?_, ?_, ?_⟩
  · unfold post_data_with_retry
    rw [batch_parts_list_singleton]
    decide
  · rw [batch_parts_list_singleton]
    decide
  · decide

/-- **C4 (amended)**: the inter-batch delay fires exactly once after
every batch that reaches the submission stage (processing succeeded and
key conversion produced products) — then indeed regardless of whether the
submission succeeded or failed — but it is skipped by the `continue` for
batches that fail during processing or produce no products. -/
theorem C4_inter_batch_delay (ip : Bool) (data : List Rec) (env : SyncEnv)
    (mr d : Nat) (b : Bool) (tr : List PostEv)
    (hrun : post_data_with_retry ip data env mr d = some (b, tr)) :
    tr.count PostEv.interSleep =
      countRS ip env 0 (batch_parts_list data 1000) :=
  post_loop_sleep_count ip env mr d (batch_parts_list data 1000) 0 b tr hrun

/-- Witness for the amended C4: one batch reaching submission, one
inter-batch sleep. -/
theorem C4_inter_batch_delay_witness :
    ([PostEv.sendCall 0 1, PostEv.interSleep] : List PostEv).count
        PostEv.interSleep =
      countRS false envSendOk 0 (batch_parts_list dataQty 1000) :=
  C4_inter_batch_delay false dataQty envSendOk 3 5 true
    [PostEv.sendCall 0 1, PostEv.interSleep]
    (by
      unfold post_data_with_retry dataQty
      rw [batch_parts_list_singleton]
      decide)

theorem alookup_aset_isSome {κ α : Type} [DecidableEq κ] (k k2 : κ) (v : α)
    (d : List (κ × α)) :
    (alookup k2 (aset k v d)).isSome = true ↔
      k2 = k ∨ (alookup k2 d).isSome = true := by
  by_cases h : k2 = k
  · subst h
    simp [alookup_aset_self]
  · rw [alookup_aset_ne k k2 v d h]
    simp [h]

theorem mem_keys_aset {κ α : Type} [DecidableEq κ] (x k : κ) (v : α)
    (d : List (κ × α)) :
    x ∈ (aset k v d).map Prod.fst ↔ x = k ∨ x ∈ d.map Prod.fst := by
  rw [← alookup_isSome_iff, ← alookup_isSome_iff, alookup_aset_isSome]

theorem aset_keys_nodup {κ α : Type} [DecidableEq κ] (k : κ) (v : α)
    (d : List (κ × α)) (h : (d.map Prod.fst).Nodup) :
    ((aset k v d).map Prod.fst).Nodup := by
  induction d with
  | nil => simp [aset]
  | cons p rest ih =>
      obtain ⟨k2, w⟩ := p
      simp only [List.map_cons, List.nodup_cons] at h
      by_cases h2 : k2 = k
      · simp only [aset, if_pos h2, List.map_cons, List.nodup_cons]
        exact h
      · simp only [aset, if_neg h2, List.map_cons, List.nodup_cons]
        refine ⟨?_, ih h.2⟩
        intro hx
        rw [mem_keys_aset] at hx
        rcases hx with hx | hx
        · exact h2 hx
        · exact h.1 hx

theorem foldl_aset_nodup (upcs : List String) :
    ∀ (inv : List InventoryItem) (acc : List (String × String)),
    (acc.map Prod.fst).Nodup →
    ((inv.foldl (fun d r => if r.upc ∈ upcs then aset r.upc r.item d else d)
      acc).map Prod.fst).Nodup := by
  intro inv
  induction inv with
  | nil => intro acc h; exact h
  | cons r rest ih =>
      intro acc h
      simp only [List.foldl_cons]
      by_cases hr : r.upc ∈ upcs
      · rw [if_pos hr]
        exact ih _ (aset_keys_nodup _ _ _ h)
      · rw [if_neg hr]
        exact ih _ h

theorem upc_to_item_keys_nodup (inv : List InventoryItem)
    (upcs : List String) : ((upc_to_item inv upcs).map Prod.fst).Nodup :=
  foldl_aset_nodup upcs inv [] (by simp)

theorem foldl_aset_lookup_isSome (upcs : List String) (u : String) :
    ∀ (inv : List InventoryItem) (acc : List (String × String)),
    ((alookup u (inv.foldl
      (fun d r => if r.upc ∈ upcs then aset r.upc r.item d else d)
      acc)).isSome = true ↔
      (alookup u acc).isSome = true ∨
      (u ∈ upcs ∧ ∃ r ∈ inv, r.upc = u)) := by
  intro inv
  induction inv with
  | nil =>
      intro acc
      simp
  | cons r rest ih =>
      intro acc
      simp only [List.foldl_cons]
      by_cases hr : r.upc ∈ upcs
      · rw [if_pos hr, ih]
        rw [alookup_aset_isSome]
        constructor
        · rintro ((h1 | h1) | h1)
          · exact Or.inr ⟨h1 ▸ hr, r, List.mem_cons_self _ _, h1.symm⟩
          · exact Or.inl h1
          · exact Or.inr ⟨h1.1, by
              obtain ⟨r2, hr2, hr2u⟩ := h1.2
              exact ⟨r2, List.mem_cons_of_mem _ hr2, hr2u⟩⟩
        · rintro (h1 | ⟨h1, r2, hr2, hr2u⟩)
          · exact Or.inl (Or.inr h1)
          · rcases List.mem_cons.mp hr2 with he | he
            · exact Or.inl (Or.inl (he ▸ hr2u).symm)
            · exact Or.inr ⟨h1, r2, he, hr2u⟩
      · rw [if_neg hr, ih]
        constructor
        · rintro (h1 | h1)
          · exact Or.inl h1
          · exact Or.inr ⟨h1.1, by
              obtain ⟨r2, hr2, hr2u⟩ := h1.2
              exact ⟨r2, List.mem_cons_of_mem _ hr2, hr2u⟩⟩
        · rintro (h1 | ⟨h1, r2, hr2, hr2u⟩)
          · exact Or.inl h1
          · rcases List.mem_cons.mp hr2 with he | he
            · exfalso
              apply hr
              have heq : r.upc = u := by rw [← he]; exact hr2u
              rw [heq]
              exact h1
            · exact Or.inr ⟨h1, r2, he, hr2u⟩

theorem upc_to_item_lookup_isSome (inv : List InventoryItem)
    (upcs : List String) (u : String) :
    (alookup u (upc_to_item inv upcs)).isSome = true ↔
      u ∈ upcs ∧ ∃ r ∈ inv, r.upc = u := by
  have h := foldl_aset_lookup_isSome upcs u inv []
  simpa [upc_to_item, alookup] using h

theorem mem_unknown_upcs (db : List Location) (l : Location) (hl : l ∈ db)
    (ha : is_unknown_active l = true) : l.upc ∈ unknown_upcs db := by
  simp only [unknown_upcs, List.mem_dedup, List.mem_map]
  exact ⟨l, List.mem_filter.mpr ⟨hl, ha⟩, rfl⟩


theorem alookup_cons {κ α : Type} [DecidableEq κ] (k k2 : κ) (v : α)
    (d : List (κ × α)) :
    alookup k ((k2, v) :: d) = if k2 = k then some v else alookup k d := rfl

theorem countP_split {α : Type} (l : List α) (p q r : α → Bool)
    (h : ∀ x ∈ l, (p x = true ↔ (q x = true ∨ r x = true)) ∧
      ¬(q x = true ∧ r x = true)) :
    l.countP p = l.countP q + l.countP r := by
  induction l with
  | nil => simp
  | cons a t ih =>
      have ha := h a (List.mem_cons_self _ _)
      have ht := ih (fun x hx => h x (List.mem_cons_of_mem _ hx))
      simp only [List.countP_cons]
      by_cases hq : q a = true
      · have hp : p a = true := ha.1.mpr (Or.inl hq)
        have hrf : r a = false := by
          cases hr2 : r a
          · rfl
          · exact absurd ⟨hq, hr2⟩ ha.2
        rw [hp, hq, hrf, ht]
        simp
        omega
      · have hq2 : q a = false := by
          cases hq3 : q a
          · rfl
          · exact absurd hq3 hq
        by_cases hrr : r a = true
        · have hp : p a = true := ha.1.mpr (Or.inr hrr)
          rw [hp, hq2, hrr, ht]
          simp
          omega
        · have hr2 : r a = false := by
            cases hr3 : r a
            · rfl
            · exact absurd hr3 hrr
          have hp : p a = false := by
            cases hp2 : p a
            · rfl
            · rcases ha.1.mp hp2 with hx | hx
              · rw [hq2] at hx
                exact absurd hx (by simp)
              · rw [hr2] at hx
                exact absurd hx (by simp)
          rw [hp, hq2, hr2, ht]
          simp

/-- The cumulative effect of the resolver's per-code update statements on
one row, as a function of the whole code-to-name dict. -/
def resolve_map (pairs : List (String × String)) (now : Nat)
    (l : Location) : Location :=
  match alookup l.upc pairs with
  | some item =>
      if l.name = "inconnu" ∧ l.is_archived = 0 then mut_loc l item now
      else l
  | none => l

theorem resolve_map_of_none (pairs : List (String × String)) (now : Nat)
    (l : Location) (h : alookup l.upc pairs = none) :
    resolve_map pairs now l = l := by
  unfold resolve_map
  rw [h]

theorem resolve_map_of_some (pairs : List (String × String)) (now : Nat)
    (l : Location) (item : String) (h : alookup l.upc pairs = some item) :
    resolve_map pairs now l =
      if l.name = "inconnu" ∧ l.is_archived = 0 then mut_loc l item now
      else l := by
  unfold resolve_map
  rw [h]

/-- The predicate of one update statement's `WHERE` clause. -/
def upd_where (u : String) (l : Location) : Bool :=
  decide (l.upc = u ∧ l.name = "inconnu" ∧ l.is_archived = 0)

theorem resolve_map_step (u item : String) (ps : List (String × String))
    (now : Nat) (hu : u ∉ ps.map Prod.fst) (l : Location) :
    resolve_map ps now
      (if l.upc = u ∧ l.name = "inconnu" ∧ l.is_archived = 0 then
        mut_loc l item now else l) =
    resolve_map ((u, item) :: ps) now l := by
  by_cases hul : l.upc = u
  · by_cases hcond : l.name = "inconnu" ∧ l.is_archived = 0
    · rw [if_pos ⟨hul, hcond.1, hcond.2⟩]
      have hn : alookup (mut_loc l item now).upc ps = none := by
        show alookup l.upc ps = none
        rw [hul]
        exact alookup_eq_none u ps hu
      rw [resolve_map_of_none ps now _ hn]
      have hs : alookup l.upc ((u, item) :: ps) = some item := by
        rw [alookup_cons, if_pos hul.symm]
      rw [resolve_map_of_some _ now l item hs, if_pos hcond]
    · rw [if_neg (fun hx => hcond ⟨hx.2.1, hx.2.2⟩)]
      have hn : alookup l.upc ps = none := by
        rw [hul]
        exact alookup_eq_none u ps hu
      rw [resolve_map_of_none ps now l hn]
      have hs : alookup l.upc ((u, item) :: ps) = some item := by
        rw [alookup_cons, if_pos hul.symm]
      rw [resolve_map_of_some _ now l item hs, if_neg hcond]
  · rw [if_neg (fun hx => hul hx.1)]
    have he : alookup l.upc ((u, item) :: ps) = alookup l.upc ps := by
      rw [alookup_cons, if_neg (fun hx => hul hx.symm)]
    unfold resolve_map
    rw [he]

theorem upd_where_count_split (u item : String)
    (ps : List (String × String)) (now : Nat)
    (hu : u ∉ ps.map Prod.fst) (l : Location) :
    ((fun l2 => is_unknown_active l2 &&
        (alookup l2.upc ((u, item) :: ps)).isSome) l = true ↔
      (upd_where u l = true ∨
       ((fun l2 => is_unknown_active l2 && (alookup l2.upc ps).isSome)
        ((fun l2 =>
          if l2.upc = u ∧ l2.name = "inconnu" ∧ l2.is_archived = 0 then
            mut_loc l2 item now else l2) l)) = true)) ∧
    ¬(upd_where u l = true ∧
      ((fun l2 => is_unknown_active l2 && (alookup l2.upc ps).isSome)
        ((fun l2 =>
          if l2.upc = u ∧ l2.name = "inconnu" ∧ l2.is_archived = 0 then
            mut_loc l2 item now else l2) l)) = true) := by
  simp only []
  by_cases hul : l.upc = u
  · by_cases hcond : l.name = "inconnu" ∧ l.is_archived = 0
    · have hw : upd_where u l = true := by
        unfold upd_where
        simp only [decide_eq_true_eq]
        exact ⟨hul, hcond.1, hcond.2⟩
      have hg : (if l.upc = u ∧ l.name = "inconnu" ∧ l.is_archived = 0 then
          mut_loc l item now else l) = mut_loc l item now :=
        if_pos ⟨hul, hcond.1, hcond.2⟩
      have hn : alookup (mut_loc l item now).upc ps = none := by
        show alookup l.upc ps = none
        rw [hul]
        exact alookup_eq_none u ps hu
      have hs : alookup l.upc ((u, item) :: ps) = some item := by
        rw [alookup_cons, if_pos hul.symm]
      have hact : is_unknown_active l = true := by
        unfold is_unknown_active
        simp only [decide_eq_true_eq]
        exact hcond
      rw [hg, hn, hs, hw, hact]
      simp
    · have hw : upd_where u l = false := by
        unfold upd_where
        simp only [decide_eq_false_iff_not]
        intro hx
        exact hcond ⟨hx.2.1, hx.2.2⟩
      have hg : (if l.upc = u ∧ l.name = "inconnu" ∧ l.is_archived = 0 then
          mut_loc l item now else l) = l :=
        if_neg (fun hx => hcond ⟨hx.2.1, hx.2.2⟩)
      have hact : is_unknown_active l = false := by
        unfold is_unknown_active
        simp only [decide_eq_false_iff_not]
        exact hcond
      rw [hg, hw, hact]
      simp
  · have hw : upd_where u l = false := by
      unfold upd_where
      simp only [decide_eq_false_iff_not]
      intro hx
      exact hul hx.1
    have hg : (if l.upc = u ∧ l.name = "inconnu" ∧ l.is_archived = 0 then
        mut_loc l item now else l) = l :=
      if_neg (fun hx => hul hx.1)
    have he : alookup l.upc ((u, item) :: ps) = alookup l.upc ps := by
      rw [alookup_cons, if_neg (fun hx => hul hx.symm)]
    rw [hg, hw, he]
    simp

theorem update_fold_spec (now : Nat) :
    ∀ (pairs : List (String × String)) (db : List Location),
    (pairs.map Prod.fst).Nodup →
    (update_fold now pairs db).1 = db.map (resolve_map pairs now) ∧
    (update_fold now pairs db).2 = db.countP (fun l =>
      is_unknown_active l && (alookup l.upc pairs).isSome) := by
  intro pairs
  induction pairs with
  | nil =>
      intro db hnd
      constructor
      · simp only [update_fold]
        have h1 : List.map (resolve_map [] now) db = List.map id db :=
          List.map_congr_left (fun l _ => resolve_map_of_none [] now l rfl)
        rw [h1, List.map_id]
      · simp [update_fold, alookup]
  | cons p ps ih =>
      obtain ⟨u, item⟩ := p
      intro db hnd
      simp only [List.map_cons, List.nodup_cons] at hnd
      obtain ⟨hu, hnd2⟩ := hnd
      have ihdb := ih (apply_update u item now db).1 hnd2
      constructor
      · rw [update_fold]
        dsimp only
        rw [ihdb.1]
        simp only [apply_update, List.map_map]
        apply List.map_congr_left
        intro l _
        simp only [Function.comp_apply]
        exact resolve_map_step u item ps now hu l
      · rw [update_fold]
        dsimp only
        rw [ihdb.2]
        simp only [apply_update, List.countP_map]
        rw [← List.countP_eq_length_filter]
        symm
        exact countP_split db _ _ _
          (fun l _ => upd_where_count_split u item ps now hu l)

theorem foldl_aset_nil_upcs (inv : List InventoryItem) :
    ∀ acc : List (String × String),
    inv.foldl (fun d r => if r.upc ∈ ([] : List String) then
      aset r.upc r.item d else d) acc = acc := by
  induction inv with
  | nil => intro acc; rfl
  | cons r rest ih =>
      intro acc
      simp only [List.foldl_cons]
      rw [if_neg (List.not_mem_nil _)]
      exact ih acc

theorem upc_to_item_nil_upcs (inv : List InventoryItem) :
    upc_to_item inv [] = [] :=
  foldl_aset_nil_upcs inv []

/-- **C8**: phase 1 of the resolver never deletes a record (length is
preserved); each row becomes exactly `resolve_map` of itself — mutated to
the catalog name with provenance restamped when it is an active
placeholder whose code is in the matched dict, untouched otherwise (in
particular records of unmatched codes and non-placeholder records are
returned field-for-field); the mutation changes only `name`,
`updated_by`, `updated_at`; the returned count is the number of rows
mutated; and for an active placeholder the code is in the dict exactly
when some catalog row carries its UPC. -/
theorem C8_resolver_frame (db : List Location) (inv : List InventoryItem)
    (now : Nat) :
    (update_locations_from_inventory db inv now).1.length = db.length ∧
    (∀ i (hi : i < db.length),
      (update_locations_from_inventory db inv now).1[i]? =
        some (resolve_map (upc_to_item inv (unknown_upcs db)) now db[i])) ∧
    (∀ (l : Location) (item : String),
      (mut_loc l item now).id = l.id ∧
      (mut_loc l item now).upc = l.upc ∧
      (mut_loc l item now).store = l.store ∧
      (mut_loc l item now).level = l.level ∧
      (mut_loc l item now).row = l.row ∧
      (mut_loc l item now).side = l.side ∧
      (mut_loc l item now).column = l.column ∧
      (mut_loc l item now).shelf = l.shelf ∧
      (mut_loc l item now).bin = l.bin ∧
      (mut_loc l item now).full_location = l.full_location ∧
      (mut_loc l item now).created_by = l.created_by ∧
      (mut_loc l item now).created_at = l.created_at ∧
      (mut_loc l item now).is_archived = l.is_archived ∧
      (mut_loc l item now).name = item ∧
      (mut_loc l item now).updated_by = "system" ∧
      (mut_loc l item now).updated_at = now) ∧
    (∀ l : Location,
      (alookup l.upc (upc_to_item inv (unknown_upcs db)) = none →
        resolve_map (upc_to_item inv (unknown_upcs db)) now l = l) ∧
      (¬(l.name = "inconnu" ∧ l.is_archived = 0) →
        resolve_map (upc_to_item inv (unknown_upcs db)) now l = l)) ∧
    (update_locations_from_inventory db inv now).2 = db.countP (fun l =>
      is_unknown_active l &&
      (alookup l.upc (upc_to_item inv (unknown_upcs db))).isSome) ∧
    (∀ l ∈ db, is_unknown_active l = true →
      ((alookup l.upc (upc_to_item inv (unknown_upcs db))).isSome = true ↔
        ∃ r ∈ inv, r.upc = l.upc)) := by
  have hframe : ∀ (l : Location) (item : String),
      (mut_loc l item now).id = l.id ∧
      (mut_loc l item now).upc = l.upc ∧
      (mut_loc l item now).store = l.store ∧
      (mut_loc l item now).level = l.level ∧
      (mut_loc l item now).row = l.row ∧
      (mut_loc l item now).side = l.side ∧
      (mut_loc l item now).column = l.column ∧
      (mut_loc l item now).shelf = l.shelf ∧
      (mut_loc l item now).bin = l.bin ∧
      (mut_loc l item now).full_location = l.full_location ∧
      (mut_loc l item now).created_by = l.created_by ∧
      (mut_loc l item now).created_at = l.created_at ∧
      (mut_loc l item now).is_archived = l.is_archived ∧
      (mut_loc l item now).name = item ∧
      (mut_loc l item now).updated_by = "system" ∧
      (mut_loc l item now).updated_at = now :=
    fun l item => ⟨rfl, rfl, rfl, rfl, rfl, rfl, rfl, rfl, rfl, rfl, rfl,
      rfl, rfl, rfl, rfl, rfl⟩
  have huntouched : ∀ l : Location,
      (alookup l.upc (upc_to_item inv (unknown_upcs db)) = none →
        resolve_map (upc_to_item inv (unknown_upcs db)) now l = l) ∧
      (¬(l.name = "inconnu" ∧ l.is_archived = 0) →
        resolve_map (upc_to_item inv (unknown_upcs db)) now l = l) := by
    intro l
    constructor
    · intro hn
      exact resolve_map_of_none _ now l hn
    · intro hcond
      cases halo : alookup l.upc (upc_to_item inv (unknown_upcs db)) with
      | none => exact resolve_map_of_none _ now l halo
      | some item =>
          rw [resolve_map_of_some _ now l item halo, if_neg hcond]
  have hcat : ∀ l ∈ db, is_unknown_active l = true →
      ((alookup l.upc (upc_to_item inv (unknown_upcs db))).isSome = true ↔
        ∃ r ∈ inv, r.upc = l.upc) := by
    intro l hl ha
    rw [upc_to_item_lookup_isSome]
    constructor
    · exact fun h => h.2
    · exact fun h => ⟨mem_unknown_upcs db l hl ha, h⟩
  by_cases hupcs : unknown_upcs db = []
  · have hres : update_locations_from_inventory db inv now = (db, 0) := by
      unfold update_locations_from_inventory
      rw [if_pos hupcs]
    have hcatnil : upc_to_item inv (unknown_upcs db) = [] := by
      rw [hupcs]
      exact upc_to_item_nil_upcs inv
    refine ⟨by rw [hres], ?_, hframe, huntouched, ?_, hcat⟩
    · intro i hi
      rw [hres, hcatnil]
      rw [resolve_map_of_none [] now db[i] rfl]
      exact List.getElem?_eq_getElem hi
    · rw [hres, hcatnil]
      simp [alookup]
  · have hres : update_locations_from_inventory db inv now =
        update_fold now (upc_to_item inv (unknown_upcs db)) db := by
      unfold update_locations_from_inventory
      rw [if_neg hupcs]
    have hspec := update_fold_spec now (upc_to_item inv (unknown_upcs db)) db
      (upc_to_item_keys_nodup inv (unknown_upcs db))
    refine ⟨?_, ?_, hframe, huntouched, ?_, hcat⟩
    · rw [hres, hspec.1, List.length_map]
    · intro i hi
      rw [hres, hspec.1, List.getElem?_map, List.getElem?_eq_getElem hi]
      rfl
    · rw [hres, hspec.2]

/-- Concrete location table for the C8 witness: two active placeholder
records, only the first of which has a catalog match. -/
def dbC8 : List Location :=
  [{ id := 1, upc := "U1", name := "inconnu", store := "1", level := "a",
     row := "b", side := "c", column := "d", shelf := "e", bin := "f",
     full_location := "abcdef", updated_by := "joe", updated_at := 7,
     created_by := "joe", created_at := 3, is_archived := 0 },
   { id := 2, upc := "U2", name := "inconnu", store := "1", level := "a",
     row := "b", side := "c", column := "d", shelf := "e", bin := "f",
     full_location := "abcdef", updated_by := "joe", updated_at := 7,
     created_by := "joe", created_at := 3, is_archived := 0 }]

/-- Concrete catalog for the C8 witness. -/
def invC8 : List InventoryItem := [{ upc := "U1", item := "Widget" }]

/-- Witness for C8 at the concrete table: row 0 is returned as its
`resolve_map` image (the name-rewritten record). -/
theorem C8_resolver_frame_witness :
    (update_locations_from_inventory dbC8 invC8 42).1[0]? =
      some (resolve_map (upc_to_item invC8 (unknown_upcs dbC8)) 42
        (dbC8.get ⟨0, by decide⟩)) :=
  (C8_resolver_frame dbC8 invC8 42).2.1 0 (by decide)
